import Mathlib

/-!
Verification of the `web_ui.py` job-submission and result-visualization
pipeline.  Python strings are modelled as `List Char` where character-level
reasoning is needed, and as `String` where only construction and equality
matter.  Machine-level concerns (actual filesystem, subprocess execution)
are modelled by explicit state records and effect traces.
-/

namespace Boltzgen

/-! ## ViewerRenderer: payload escaping (source line 31)

`escaped_pdb = raw_pdb.replace("\n", "\\n").replace("'", "\\'")`.
Python `str.replace` with a single-character pattern replaces every
occurrence of that character, left to right, which is exactly the
per-character expansion below. -/

def nlChar : Char := Char.ofNat 10

def bsChar : Char := Char.ofNat 92

def quoteChar : Char := Char.ofNat 39

/-- Python `s.replace(c, r)` for a single-character pattern `c`:
every occurrence of `c` is expanded to `r`, all other characters kept. -/
def replaceCharAll (c : Char) (r : List Char) : List Char → List Char
  | [] => []
  | x :: xs => (if x = c then r else [x]) ++ replaceCharAll c r xs

/-- Source line 31: newline becomes backslash-n, then quote becomes
backslash-quote. -/
def escaped_pdb (raw_pdb : List Char) : List Char :=
  replaceCharAll quoteChar [bsChar, quoteChar]
    (replaceCharAll nlChar [bsChar, 'n'] raw_pdb)

/-- JavaScript lexing of the emitted `let pdbData = '<payload>';` literal,
restricted to the payload: scans the payload inside the single-quoted
string context and returns `true` when an unescaped single quote occurs,
i.e. when the payload terminates the string early (breakout). A character
following a backslash is consumed as an escape sequence. -/
def jsClosesEarly : List Char → Bool
  | [] => false
  | [x] => x = quoteChar
  | x :: y :: rest =>
    if x = bsChar then jsClosesEarly rest
    else if x = quoteChar then true
    else jsClosesEarly (y :: rest)

/-! ## SpecBuilder (source lines 124-152, `generate_config_yaml`) -/

/-- The `binder_entity["protein"]` dict: id, sequence range string, and the
`cyclic` key which is inserted (with value `True`) only when `is_cyclic`. -/
structure BinderProtein where
  id : String
  sequence : String
  cyclic : Option Bool
  deriving Repr, DecidableEq

/-- Source lines 125-132. -/
def binder_entity (binder_len_min binder_len_max : Nat) (is_cyclic : Bool) :
    BinderProtein :=
  { id := "B"
    sequence := toString binder_len_min ++ ".." ++ toString binder_len_max
    cyclic := if is_cyclic then some true else none }

/-- The reading rule stated by the spec for the serialized document:
a present `cyclic` field means `true`, an absent field means `false`. -/
def read_cyclic (b : BinderProtein) : Bool :=
  b.cyclic.isSome

/-- The space character, the only character removed by
`hotspots_text.replace(" ", "")`. -/
def spaceChar : Char := Char.ofNat 32

/-- CPython `str.isspace()`: true exactly for U+0009 to U+000D (tab, LF,
vertical tab, form feed, CR), U+001C to U+001F, the space U+0020,
U+0085 (NEL), U+00A0 (NBSP), U+1680, U+2000 to U+200A, U+2028, U+2029,
U+202F, U+205F and U+3000. -/
def pyIsSpace (c : Char) : Bool :=
  decide ((9 ≤ c.toNat ∧ c.toNat ≤ 13) ∨ (28 ≤ c.toNat ∧ c.toNat ≤ 31) ∨
    c.toNat = 32 ∨ c.toNat = 133 ∨ c.toNat = 160 ∨ c.toNat = 5760 ∨
    (8192 ≤ c.toNat ∧ c.toNat ≤ 8202) ∨ c.toNat = 8232 ∨ c.toNat = 8233 ∨
    c.toNat = 8239 ∨ c.toNat = 8287 ∨ c.toNat = 12288)

/-- Python `str.strip()` on the hotspot text: drop every `str.isspace()`
character from both ends. -/
def pyStrip (s : List Char) : List Char :=
  ((s.dropWhile pyIsSpace).reverse.dropWhile pyIsSpace).reverse

/-- The `target_entity["file"]` dict built by `generate_config_yaml`
(source lines 134-146): path (base name), the single-element `include`
list of chain ids, and the optional `binding_types` list, each element a
chain id paired with the binding string. -/
structure TargetFileEntity where
  path : String
  include_chains : List String
  binding_types : Option (List (String × List Char))
  deriving Repr, DecidableEq

/-- Source lines 134-146: `binding_types` is attached only when
`hotspots_text and hotspots_text.strip()` is truthy, and its binding
string is `hotspots_text.replace(" ", "")` (spaces only). -/
def target_entity (pdb_name : String) (target_chain_id : String)
    (hotspots_text : List Char) : TargetFileEntity :=
  { path := pdb_name
    include_chains := [target_chain_id]
    binding_types :=
      if hotspots_text ≠ [] ∧ pyStrip hotspots_text ≠ [] then
        some [(target_chain_id, replaceCharAll spaceChar [] hotspots_text)]
      else none }

/-- The full design specification written to `design_spec.yaml`
(source line 148: `config_data = {"entities": [binder_entity, target_entity]}`,
in that order). -/
structure DesignSpec where
  binder : BinderProtein
  target : TargetFileEntity
  deriving Repr, DecidableEq

/-- Source lines 124-152 (the pure construction; the YAML write is
recorded as an effect by the caller model below). -/
def generate_config_yaml (pdb_name : String) (target_chain_id : String)
    (binder_len_min binder_len_max : Nat) (hotspots_text : List Char)
    (is_cyclic : Bool) : DesignSpec :=
  { binder := binder_entity binder_len_min binder_len_max is_cyclic
    target := target_entity pdb_name target_chain_id hotspots_text }

/-! ## ResultLocator and JobRunner (source lines 154-202) -/

/-- Glob pattern `*.<ext>` modelled as a suffix test on the file name. -/
def strEndsWith (f ext : String) : Bool :=
  decide (f.data.drop (f.data.length - ext.data.length) = ext.data)

/-- The filesystem state of one job workspace after the subprocess ran:
whether `final_ranked_designs` and `intermediate_designs` exist, and the
names they hold, in filesystem-enumeration order. -/
structure JobFS where
  final_exists : Bool
  inter_exists : Bool
  final_files : List String
  inter_files : List String

/-- Source lines 191-193: `final_dir` is `final_ranked_designs` when it
exists, else `intermediate_designs`.  `Path.glob` on a directory that does
not exist yields no entries and raises nothing, hence the empty list in
the last case. -/
def selected_dir_files (fs : JobFS) : List String :=
  if fs.final_exists then fs.final_files
  else if fs.inter_exists then fs.inter_files
  else []

/-- Source line 195: `list(final_dir.glob("*.pdb")) + list(final_dir.glob("*.cif"))`. -/
def generated_files (fs : JobFS) : List String :=
  (selected_dir_files fs).filter (fun f => strEndsWith f ".pdb") ++
    (selected_dir_files fs).filter (fun f => strEndsWith f ".cif")

/-- The `subprocess.run` result: exit status and captured streams. -/
structure ProcOutput where
  returncode : Int
  stdout : String
  stderr : String

/-- Source line 187: the log string assembled from the command line and
the captured streams. -/
def mk_logs (command_line : String) (p : ProcOutput) : String :=
  "=== CMD ===\n" ++ command_line ++ "\n\n=== STDOUT ===\n" ++ p.stdout ++
    "\n=== STDERR ===\n" ++ p.stderr

/-- Source lines 187-202, the decision made after the subprocess ran.
The first component `some best` stands for the viewer document rendered
from `best` (line 202 calls `get_interactive_3dmol_iframe(best_pdb)`);
`none` marks the fatal no-results path of lines 197-198. -/
def post_run (command_line : String) (p : ProcOutput) (fs : JobFS) :
    Option String × String :=
  let logs := mk_logs command_line p
  match generated_files fs with
  | [] => (none, "未找到结果文件。\n" ++ logs)
  | best :: _ => (some best, logs)

/-! ## The submission pipeline as an effect trace (source lines 154-202) -/

/-- Side effects the pipeline performs on the world, in program order. -/
inductive Effect where
  | mkdir_job (dir : String)
  | copy_input (src dst : String)
  | write_yaml (path : String) (spec : DesignSpec)
  | launch_subprocess (args : List String)
  deriving Repr, DecidableEq

/-- `Path(name).name`: the base name after the last path separator. -/
def base_name (s : String) : String :=
  String.mk ((s.data.reverse.takeWhile (fun c => c ≠ '/')).reverse)

/-- Source lines 173-180: the argument vector handed to `subprocess.run`. -/
def boltzgen_args (yaml_path out_dir protocol : String)
    (num_designs budget steps : Nat) : List String :=
  ["boltzgen", "run", yaml_path,
    "--output", out_dir,
    "--protocol", protocol,
    "--num_designs", toString num_designs,
    "--budget", toString budget,
    "--config", "design", "sampling.steps=" ++ toString steps]

/-- Source line 160. -/
def missing_input_error : String := "错误：请先上传 PDB 文件"

/-- How one call of `run_boltzgen_task` ends: either the function returns
a `(visualization, log)` pair to the UI, or an exception escapes it.
`uncaught src` is the exception raised by `shutil.copy(src, ...)` at
line 164, which sits outside every `try` block, when the supplied source
file is missing on disk or unreadable: it propagates to the caller and
the function returns nothing. -/
inductive TaskOutcome where
  | returned (viz : Option String) (logs : String)
  | uncaught (src : String)
  deriving Repr, DecidableEq

/-- Source lines 154-202, `run_boltzgen_task`, modelled as the outcome
paired with the trace of effects performed, given the external world's
responses: `input_readable` says whether the supplied source file can be
read when `shutil.copy` runs at line 164, `p` is the subprocess output
and `fs` the resulting workspace contents.  The remaining I/O failure
branches of lines 170-171 and 188-189 (config write or process launch
raising) are taken to succeed; the claims settled here concern the
missing-or-unreadable-input paths and the post-run decision, which those
branches do not reach or alter. -/
def run_boltzgen_task (job_id : String) (input_file : Option String)
    (input_readable : Bool) (target_chain : String)
    (binder_min binder_max : Nat) (hotspots : List Char)
    (is_cyclic : Bool) (protocol : String) (num_designs budget steps : Nat)
    (p : ProcOutput) (fs : JobFS) : TaskOutcome × List Effect :=
  let job_dir := "gradio_workspace/" ++ job_id
  match input_file with
  | none =>
    (TaskOutcome.returned none missing_input_error,
      [Effect.mkdir_job job_dir])
  | some fname =>
    if input_readable then
      let saved := job_dir ++ "/" ++ base_name fname
      let yaml_path := job_dir ++ "/design_spec.yaml"
      let spec := generate_config_yaml (base_name fname) target_chain
        binder_min binder_max hotspots is_cyclic
      let args := boltzgen_args yaml_path job_dir protocol
        num_designs budget steps
      let res := post_run (" ".intercalate args) p fs
      (TaskOutcome.returned res.1 res.2,
        [Effect.mkdir_job job_dir, Effect.copy_input fname saved,
          Effect.write_yaml yaml_path spec, Effect.launch_subprocess args])
    else
      (TaskOutcome.uncaught fname, [Effect.mkdir_job job_dir])

/-! ## ViewerRenderer hover protocol (source lines 68-93)

The two callbacks installed by `viewer.setHoverable`: on pointer-enter,
if `atom.label` is unset, `viewer.addLabel` returns a fresh handle which
is stored on the atom; on pointer-leave, if `atom.label` is set,
`viewer.removeLabel` deletes that handle and the field is cleared. -/

/-- The viewer state: live labels as (handle, atom) pairs in creation
order, the next fresh handle, and the per-atom `label` field. -/
structure HoverState where
  labels : List (Nat × Nat)
  nextId : Nat
  attach : Nat → Option Nat

/-- The state before any hover event: no labels anywhere. -/
def hoverInit : HoverState :=
  { labels := [], nextId := 0, attach := fun _ => none }

/-- Source lines 69-85: the pointer-enter callback for atom `a`. -/
def hoverEnter (a : Nat) (s : HoverState) : HoverState :=
  match s.attach a with
  | some _ => s
  | none =>
    { labels := s.labels ++ [(s.nextId, a)]
      nextId := s.nextId + 1
      attach := fun x => if x = a then some s.nextId else s.attach x }

/-- Source lines 86-92: the pointer-leave callback for atom `a`. -/
def hoverLeave (a : Nat) (s : HoverState) : HoverState :=
  match s.attach a with
  | none => s
  | some h =>
    { labels := s.labels.filter (fun q => q.1 ≠ h)
      nextId := s.nextId
      attach := fun x => if x = a then none else s.attach x }

/-- A pointer event over an atom. -/
inductive HoverEvent where
  | enter (a : Nat)
  | leave (a : Nat)

def hoverStep (s : HoverState) : HoverEvent → HoverState
  | HoverEvent.enter a => hoverEnter a s
  | HoverEvent.leave a => hoverLeave a s

/-- The state reached from the initial state by a sequence of events. -/
def hoverRun (evs : List HoverEvent) : HoverState :=
  evs.foldl hoverStep hoverInit

/-- The number of labels live in the viewer for atom `a`. -/
def labelsFor (a : Nat) (s : HoverState) : Nat :=
  (s.labels.filter (fun q => q.2 = a)).length

/-- The inductive invariant of the hover protocol: every live handle is
below the fresh counter, handles are pairwise distinct, and every live
label is the one attached to its atom. -/
def HoverInv (s : HoverState) : Prop :=
  (∀ q ∈ s.labels, q.1 < s.nextId) ∧
    (s.labels.map Prod.fst).Nodup ∧
    (∀ q ∈ s.labels, s.attach q.2 = some q.1)

end Boltzgen

namespace Boltzgen

/-! ## Helper lemmas -/

theorem replaceCharAll_append (c : Char) (r : List Char) (a b : List Char) :
    replaceCharAll c r (a ++ b) =
      replaceCharAll c r a ++ replaceCharAll c r b := by
  induction a with
  | nil => rfl
  | cons x xs ih => simp [replaceCharAll, ih]

theorem mem_replaceCharAll {c : Char} {r l : List Char} {x : Char}
    (hx : x ∈ replaceCharAll c r l) : (x ∈ l ∧ x ≠ c) ∨ x ∈ r := by
  induction l with
  | nil => simp [replaceCharAll] at hx
  | cons y ys ih =>
    simp only [replaceCharAll, List.mem_append] at hx
    rcases hx with hx | hx
    · by_cases hyc : y = c
      · right; simpa [hyc] using hx
      · left
        simp [hyc] at hx
        simp [hx, hyc]
    · rcases ih hx with ⟨h1, h2⟩ | h
      · exact Or.inl ⟨List.mem_cons_of_mem _ h1, h2⟩
      · exact Or.inr h

theorem nlChar_not_mem_escaped (s : List Char) : nlChar ∉ escaped_pdb s := by
  intro hmem
  rcases mem_replaceCharAll hmem with ⟨h1, _⟩ | h
  · rcases mem_replaceCharAll h1 with ⟨_, h3⟩ | h2
    · exact h3 rfl
    · simp [nlChar, bsChar] at h2
  · simp [nlChar, bsChar, quoteChar] at h

theorem jsClosesEarly_bs_cons (c : Char) (rest : List Char) :
    jsClosesEarly (bsChar :: c :: rest) = jsClosesEarly rest := by
  simp [jsClosesEarly, bsChar]

theorem jsClosesEarly_plain_cons {x : Char} (rest : List Char)
    (hb : x ≠ bsChar) (hq : x ≠ quoteChar) :
    jsClosesEarly (x :: rest) = jsClosesEarly rest := by
  cases rest with
  | nil => simp [jsClosesEarly, hq]
  | cons y ys => simp [jsClosesEarly, hb, hq]

theorem escaped_no_breakout_of_no_bs (s : List Char) (hbs : bsChar ∉ s) :
    jsClosesEarly (escaped_pdb s) = false := by
  induction s with
  | nil => rfl
  | cons x xs ih =>
    have hx : x ≠ bsChar := fun h => hbs (h ▸ List.mem_cons_self _ _)
    have hxs : bsChar ∉ xs := fun h => hbs (List.mem_cons_of_mem _ h)
    have hstep : escaped_pdb (x :: xs) =
        escaped_pdb [x] ++ escaped_pdb xs := by
      show escaped_pdb ([x] ++ xs) = _
      simp only [escaped_pdb, replaceCharAll_append]
    rw [hstep]
    by_cases hnl : x = nlChar
    · have h1 : escaped_pdb [x] = [bsChar, 'n'] := by
        simp [escaped_pdb, replaceCharAll, hnl, nlChar, bsChar, quoteChar]
      rw [h1, List.cons_append, List.cons_append,
        jsClosesEarly_bs_cons]
      simpa using ih hxs
    · by_cases hq : x = quoteChar
      · have h1 : escaped_pdb [x] = [bsChar, quoteChar] := by
          simp [escaped_pdb, replaceCharAll, hq, nlChar, bsChar, quoteChar]
        rw [h1, List.cons_append, List.cons_append,
          jsClosesEarly_bs_cons]
        simpa using ih hxs
      · have h1 : escaped_pdb [x] = [x] := by
          simp [escaped_pdb, replaceCharAll, hnl, hq]
        rw [h1, List.cons_append, List.nil_append,
          jsClosesEarly_plain_cons _ hx hq]
        exact ih hxs

/-! ## Claim theorems -/

/-- C1 counterexample: the claim asserts that for every structure file the
escaped payload cannot break out of the single-quoted script string.  The
two-character payload backslash-quote is escaped to
backslash-backslash-quote, whose final quote is unescaped (the two
backslashes form one escape sequence), so the string closes early. -/
theorem escaped_pdb_breakout_cex :
    jsClosesEarly (escaped_pdb [Char.ofNat 92, Char.ofNat 39]) = true := by
  decide

/-- C1 (amended): every newline is neutralized (none survives escaping),
and for every payload containing no backslash character the escaped text
cannot close the single-quoted script-string context early; payloads that
contain backslashes are not fully neutralized. -/
theorem escaped_pdb_neutralizes (s : List Char) :
    nlChar ∉ escaped_pdb s ∧
      (bsChar ∉ s → jsClosesEarly (escaped_pdb s) = false) :=
  ⟨nlChar_not_mem_escaped s, escaped_no_breakout_of_no_bs s⟩

/-- Witness for C1 (amended) at the concrete backslash-free payload
`HETATM` followed by a newline and a quote. -/
theorem escaped_pdb_neutralizes_witness :
    bsChar ∉ [Char.ofNat 72, Char.ofNat 10, Char.ofNat 39] ∧
      jsClosesEarly (escaped_pdb [Char.ofNat 72, Char.ofNat 10, Char.ofNat 39])
        = false :=
  ⟨by decide,
    (escaped_pdb_neutralizes [Char.ofNat 72, Char.ofNat 10, Char.ofNat 39]).2
      (by decide)⟩

/-- C6: the `cyclic` field of the built binder entity is present (with
value `true`) iff the cyclic input was `true`, absent otherwise, and
reading the document back under the rule present-to-true, absent-to-false
recovers the input boolean. -/
theorem cyclic_flag_iff (mn mx : Nat) (c : Bool) :
    ((binder_entity mn mx c).cyclic = some true ↔ c = true) ∧
      ((binder_entity mn mx c).cyclic = none ↔ c = false) ∧
      read_cyclic (binder_entity mn mx c) = c := by
  cases c <;> simp [binder_entity, read_cyclic]

/-- C7: for valid length bounds the binder sequence string is exactly the
two bounds joined by two dots. -/
theorem binder_range_string (mn mx : Nat) (c : Bool) (_h : mn ≤ mx) :
    (binder_entity mn mx c).sequence = toString mn ++ ".." ++ toString mx :=
  rfl

/-- Witness for C7 at the default UI bounds 8 and 16. -/
theorem binder_range_string_witness :
    8 ≤ 16 ∧ (binder_entity 8 16 false).sequence = "8..16" :=
  ⟨by decide, by rw [binder_range_string 8 16 false (by decide)]; rfl⟩

/-- C2: the post-subprocess decision never consults the exit status (two
runs differing only in exit code produce identical results), and whenever
the selected output directory yields at least one recognized file the
pipeline returns a visualization together with the full captured log,
even for a nonzero exit code. -/
theorem exit_code_not_consulted (c : String) (e eAlt : Int) (out err : String)
    (fs : JobFS) :
    post_run c ⟨e, out, err⟩ fs = post_run c ⟨eAlt, out, err⟩ fs ∧
      (generated_files fs ≠ [] →
        ∃ best, post_run c ⟨e, out, err⟩ fs =
          (some best, mk_logs c ⟨e, out, err⟩)) := by
  constructor
  · rfl
  · intro h
    cases hg : generated_files fs with
    | nil => exact absurd hg h
    | cons b rest => exact ⟨b, by simp [post_run, hg]⟩

/-- Witness for C2: a nonzero exit with one `.pdb` file present still
yields a visualization. -/
theorem exit_code_not_consulted_witness :
    generated_files ⟨true, false, ["a.pdb"], []⟩ ≠ [] ∧
      ∃ best, post_run "boltzgen run" ⟨1, "out", "err"⟩
          ⟨true, false, ["a.pdb"], []⟩ =
        (some best, mk_logs "boltzgen run" ⟨1, "out", "err"⟩) :=
  ⟨by decide,
    (exit_code_not_consulted "boltzgen run" 1 0 "out" "err"
      ⟨true, false, ["a.pdb"], []⟩).2 (by decide)⟩

/-- C3 counterexample: a submission whose supplied input file is missing
on disk or unreadable when the copy runs does not produce the claimed
distinct user-facing error and return: `shutil.copy` at line 164 sits
outside every `try` block, so its exception escapes the function
uncaught (the `uncaught` constructor is disjoint from every `returned`
outcome). -/
theorem unreadable_input_raises_cex :
    (run_boltzgen_task "run_1" (some "target.pdb") false "A" 8 16 []
        false "peptide-anything" 2 1 50 ⟨0, "", ""⟩
        ⟨false, false, [], []⟩).1 =
      TaskOutcome.uncaught "target.pdb" :=
  rfl

/-- C3 (amended): a submission with no input file supplied returns the
dedicated user-facing error before any subprocess is invoked (its effect
trace is exactly the directory creation: no copy, no config write, no
subprocess launch); a submission whose supplied input file is missing or
unreadable on disk likewise never reaches the subprocess, but instead of
a distinct user-facing error the copy step's exception escapes the
function uncaught. -/
theorem missing_input_short_circuits (job_id fname target_chain : String)
    (readable : Bool) (bmin bmax : Nat) (hs : List Char) (cyc : Bool)
    (proto : String) (nd bud st : Nat) (p : ProcOutput) (fs : JobFS) :
    run_boltzgen_task job_id none readable target_chain bmin bmax hs cyc
        proto nd bud st p fs =
      (TaskOutcome.returned none missing_input_error,
        [Effect.mkdir_job ("gradio_workspace/" ++ job_id)]) ∧
      run_boltzgen_task job_id (some fname) false target_chain bmin bmax
          hs cyc proto nd bud st p fs =
        (TaskOutcome.uncaught fname,
          [Effect.mkdir_job ("gradio_workspace/" ++ job_id)]) :=
  ⟨rfl, rfl⟩

/-- C9: the job directory creation is the first effect of every
submission, including one with no input file; on the missing-input error
path the trace is nonempty (the freshly named job directory already
exists) even though the returned visualization is the error value. -/
theorem job_dir_created_before_validation (job_id : String)
    (input_file : Option String) (readable : Bool) (target_chain : String)
    (bmin bmax : Nat) (hs : List Char) (cyc : Bool) (proto : String)
    (nd bud st : Nat) (p : ProcOutput) (fs : JobFS) :
    (run_boltzgen_task job_id input_file readable target_chain bmin bmax
        hs cyc proto nd bud st p fs).2.head? =
      some (Effect.mkdir_job ("gradio_workspace/" ++ job_id)) ∧
      (run_boltzgen_task job_id none readable target_chain bmin bmax hs
          cyc proto nd bud st p fs).1 =
        TaskOutcome.returned none missing_input_error := by
  constructor
  · cases input_file with
    | none => rfl
    | some fname => cases readable <;> rfl
  · rfl

/-- C5: the primary directory is probed first and shadows the fallback
completely (the result depends only on the primary listing when it
exists); the fallback listing is used exactly when the primary is absent;
when both are absent, or when the selected directory holds no `.pdb` or
`.cif` file, the collected list is empty — and the collection is a total
function, so no exception arises from it. -/
theorem result_locator_spec (fs : JobFS) :
    (fs.final_exists = true →
      generated_files fs =
        fs.final_files.filter (fun f => strEndsWith f ".pdb") ++
          fs.final_files.filter (fun f => strEndsWith f ".cif")) ∧
      (fs.final_exists = false → fs.inter_exists = true →
        generated_files fs =
          fs.inter_files.filter (fun f => strEndsWith f ".pdb") ++
            fs.inter_files.filter (fun f => strEndsWith f ".cif")) ∧
      (fs.final_exists = false → fs.inter_exists = false →
        generated_files fs = []) ∧
      ((∀ f ∈ selected_dir_files fs,
          strEndsWith f ".pdb" = false ∧ strEndsWith f ".cif" = false) →
        generated_files fs = []) := by
  refine ⟨?_, ?_, ?_, ?_⟩
  · intro h
    simp [generated_files, selected_dir_files, h]
  · intro h1 h2
    simp [generated_files, selected_dir_files, h1, h2]
  · intro h1 h2
    simp [generated_files, selected_dir_files, h1, h2]
  · intro h
    have h1 : (selected_dir_files fs).filter
        (fun f => strEndsWith f ".pdb") = [] :=
      List.filter_eq_nil_iff.mpr (fun a ha => by simp [(h a ha).1])
    have h2 : (selected_dir_files fs).filter
        (fun f => strEndsWith f ".cif") = [] :=
      List.filter_eq_nil_iff.mpr (fun a ha => by simp [(h a ha).2])
    simp [generated_files, h1, h2]

/-- Witness for C5: with both directories present and holding matching
files, only the primary files are returned. -/
theorem result_locator_spec_witness :
    ((⟨true, true, ["a.pdb"], ["b.pdb"]⟩ : JobFS).final_exists = true) ∧
      generated_files ⟨true, true, ["a.pdb"], ["b.pdb"]⟩ = ["a.pdb"] :=
  ⟨rfl, by
    rw [(result_locator_spec ⟨true, true, ["a.pdb"], ["b.pdb"]⟩).1 rfl]
    decide⟩

theorem not_pdb_and_cif (f : String) :
    ¬ (strEndsWith f ".pdb" = true ∧ strEndsWith f ".cif" = true) := by
  rintro ⟨hp, hc⟩
  have hp2 := of_decide_eq_true hp
  have hc2 := of_decide_eq_true hc
  have hlen : (".pdb".data.length : Nat) = ".cif".data.length := by decide
  rw [hlen] at hp2
  have heq : (".pdb".data : List Char) = ".cif".data := hp2.symm.trans hc2
  exact absurd heq (by decide)

theorem append_partition_index_lt {α : Type} (A B : List α)
    (pA : α → Bool) (pB : α → Bool)
    (hA : ∀ x ∈ A, pA x = true) (hB : ∀ x ∈ B, pB x = true)
    (hx : ∀ x, ¬ (pA x = true ∧ pB x = true)) :
    ∀ (i j : Nat) (hi : i < (A ++ B).length) (hj : j < (A ++ B).length),
      pA ((A ++ B).get ⟨i, hi⟩) = true →
      pB ((A ++ B).get ⟨j, hj⟩) = true → i < j := by
  intro i j hi hj hpi hpj
  have hiA : i < A.length := by
    by_contra hge
    push_neg at hge
    have hib : i - A.length < B.length := by
      rw [List.length_append] at hi; omega
    have hEq : (A ++ B).get ⟨i, hi⟩ = B.get ⟨i - A.length, hib⟩ := by
      simp only [List.get_eq_getElem]
      exact List.getElem_append_right hge
    have hmem : (A ++ B).get ⟨i, hi⟩ ∈ B := hEq ▸ B.get_mem _ _
    exact hx _ ⟨hpi, hB _ hmem⟩
  have hjA : A.length ≤ j := by
    by_contra hlt
    push_neg at hlt
    have hEq : (A ++ B).get ⟨j, hj⟩ = A.get ⟨j, hlt⟩ := by
      simp only [List.get_eq_getElem]
      exact List.getElem_append_left hlt
    have hmem : (A ++ B).get ⟨j, hj⟩ ∈ A := hEq ▸ A.get_mem _ _
    exact hx _ ⟨hA _ hmem, hpj⟩
  omega

/-- C10: in the collected output list every `.pdb` file precedes every
`.cif` file, and whenever the selected directory holds at least one
`.pdb` file the first element of the list (the file chosen as best for
visualization, source line 200) is a `.pdb` file. -/
theorem pdb_files_precede_cif (fs : JobFS) :
    (∀ (i j : Nat) (hi : i < (generated_files fs).length)
        (hj : j < (generated_files fs).length),
      strEndsWith ((generated_files fs).get ⟨i, hi⟩) ".pdb" = true →
      strEndsWith ((generated_files fs).get ⟨j, hj⟩) ".cif" = true →
      i < j) ∧
      ((∃ f ∈ selected_dir_files fs, strEndsWith f ".pdb" = true) →
        ∃ g, (generated_files fs).head? = some g ∧
          strEndsWith g ".pdb" = true) := by
  constructor
  · exact append_partition_index_lt
      ((selected_dir_files fs).filter (fun f => strEndsWith f ".pdb"))
      ((selected_dir_files fs).filter (fun f => strEndsWith f ".cif"))
      (fun f => strEndsWith f ".pdb") (fun f => strEndsWith f ".cif")
      (fun x hxm => (List.mem_filter.mp hxm).2)
      (fun x hxm => (List.mem_filter.mp hxm).2)
      not_pdb_and_cif
  · rintro ⟨f, hf, hfp⟩
    have hAne : (selected_dir_files fs).filter
        (fun g => strEndsWith g ".pdb") ≠ [] := by
      intro hnil
      exact (List.filter_eq_nil_iff.mp hnil f hf) hfp
    cases hA : (selected_dir_files fs).filter
        (fun g => strEndsWith g ".pdb") with
    | nil => exact absurd hA hAne
    | cons a t =>
      refine ⟨a, ?_, ?_⟩
      · show (generated_files fs).head? = some a
        unfold generated_files
        rw [hA]
        rfl
      · have : a ∈ (selected_dir_files fs).filter
            (fun g => strEndsWith g ".pdb") := by
          rw [hA]; exact List.mem_cons_self _ _
        exact (List.mem_filter.mp this).2

/-- Witness for C10: a directory listing a `.cif` before a `.pdb` still
yields the `.pdb` first. -/
theorem pdb_files_precede_cif_witness :
    (∃ f ∈ selected_dir_files ⟨true, false, ["x.cif", "y.pdb"], []⟩,
        strEndsWith f ".pdb" = true) ∧
      ∃ g, (generated_files ⟨true, false, ["x.cif", "y.pdb"], []⟩).head? =
          some g ∧ strEndsWith g ".pdb" = true :=
  ⟨⟨"y.pdb", by decide, by decide⟩,
    (pdb_files_precede_cif ⟨true, false, ["x.cif", "y.pdb"], []⟩).2
      ⟨"y.pdb", by decide, by decide⟩⟩

theorem replaceCharAll_nil_eq_filter (c : Char) (l : List Char) :
    replaceCharAll c [] l = l.filter (fun x => x ≠ c) := by
  induction l with
  | nil => rfl
  | cons x xs ih =>
    by_cases hx : x = c <;>
      simp [replaceCharAll, List.filter_cons, hx, ih]

/-- C4 counterexample: the claim says all whitespace is stripped from a
trim-nonempty hotspot text, but the code removes only space characters
(`replace(" ", "")`, line 142): the text tab-1-2 is trim-nonempty, its
all-whitespace-stripped form is 1-2, yet the built binding annotation
keeps the tab. -/
theorem hotspots_whitespace_cex :
    (target_entity "t.pdb" "A" [Char.ofNat 9, '1', '2']).binding_types ≠
      some [("A", ([Char.ofNat 9, '1', '2'].filter
        (fun c => !pyIsSpace c)))] := by
  decide

/-- C4 (amended): if the hotspot text is empty after trimming, the target
entity carries no binding annotation; otherwise the annotation equals the
hotspot text with all space characters (U+0020) removed — ordering and
every other character, including non-space whitespace such as tabs,
preserved, with no validation applied. -/
theorem hotspots_binding_spec (pdb_name chain : String) (h : List Char) :
    (pyStrip h = [] →
      (target_entity pdb_name chain h).binding_types = none) ∧
      (pyStrip h ≠ [] →
        (target_entity pdb_name chain h).binding_types =
          some [(chain, h.filter (fun c => c ≠ spaceChar))]) := by
  constructor
  · intro hstrip
    unfold target_entity
    have hcond : ¬ (h ≠ [] ∧ pyStrip h ≠ []) := by
      rintro ⟨_, h2⟩; exact h2 hstrip
    rw [if_neg hcond]
  · intro hstrip
    have hne : h ≠ [] := by
      intro hnil; rw [hnil] at hstrip; exact hstrip rfl
    unfold target_entity
    rw [if_pos ⟨hne, hstrip⟩, replaceCharAll_nil_eq_filter]

/-- Witness for C4 (amended) at the spec example with spaces only, where
the normalization agrees with full whitespace stripping. -/
theorem hotspots_binding_spec_witness :
    pyStrip [spaceChar, '1', '2', ',', '1', '4'] ≠ [] ∧
      (target_entity "t.pdb" "A"
          [spaceChar, '1', '2', ',', '1', '4']).binding_types =
        some [("A", ['1', '2', ',', '1', '4'])] :=
  ⟨by decide, by
    rw [(hotspots_binding_spec "t.pdb" "A"
      [spaceChar, '1', '2', ',', '1', '4']).2 (by decide)]
    decide⟩

theorem hoverEnter_of_attached (a : Nat) (s : HoverState) (h : Nat)
    (hatt : s.attach a = some h) : hoverEnter a s = s := by
  unfold hoverEnter; rw [hatt]

theorem hoverEnter_attach_self (a : Nat) (s : HoverState)
    (hnone : s.attach a = none) :
    (hoverEnter a s).attach a = some s.nextId := by
  unfold hoverEnter
  rw [hnone]
  simp

theorem hoverInv_init : HoverInv hoverInit := by
  refine ⟨?_, ?_, ?_⟩ <;> simp [hoverInit]

theorem hoverInv_enter (a : Nat) (s : HoverState) (hs : HoverInv s) :
    HoverInv (hoverEnter a s) := by
  obtain ⟨hbnd, hnd, hatt⟩ := hs
  unfold hoverEnter
  cases hcase : s.attach a with
  | some h => exact ⟨hbnd, hnd, hatt⟩
  | none =>
    refine ⟨?_, ?_, ?_⟩
    · intro q hq
      simp only [List.mem_append, List.mem_singleton] at hq
      rcases hq with hq | hq
      · exact Nat.lt_succ_of_lt (hbnd q hq)
      · rw [hq]; exact Nat.lt_succ_self _
    · rw [List.map_append]
      refine (List.nodup_append).mpr ⟨hnd, ?_, ?_⟩
      · simp
      · intro x hx
        simp only [List.map_cons, List.map_nil, List.mem_singleton]
        intro hxid
        rcases List.mem_map.mp hx with ⟨q, hqmem, hqfst⟩
        have := hbnd q hqmem
        omega
    · intro q hq
      simp only [List.mem_append, List.mem_singleton] at hq
      rcases hq with hq | hq
      · have hq2 : q.2 ≠ a := by
          intro heq
          have := hatt q hq
          rw [heq, hcase] at this
          exact Option.noConfusion this
        simp only [hq2, if_neg hq2]
        exact hatt q hq
      · rw [hq]
        simp

theorem hoverInv_leave (a : Nat) (s : HoverState) (hs : HoverInv s) :
    HoverInv (hoverLeave a s) := by
  obtain ⟨hbnd, hnd, hatt⟩ := hs
  unfold hoverLeave
  cases hcase : s.attach a with
  | none => exact ⟨hbnd, hnd, hatt⟩
  | some h =>
    refine ⟨?_, ?_, ?_⟩
    · intro q hq
      exact hbnd q (List.mem_of_mem_filter hq)
    · exact hnd.sublist ((List.filter_sublist _).map Prod.fst)
    · intro q hq
      have hqmem : q ∈ s.labels := List.mem_of_mem_filter hq
      have hqh : q.1 ≠ h := by
        have := (List.mem_filter.mp hq).2
        simpa using this
      have hq2 : q.2 ≠ a := by
        intro heq
        have := hatt q hqmem
        rw [heq, hcase] at this
        exact hqh (Option.some.inj this).symm
      simp only [if_neg hq2]
      exact hatt q hqmem

theorem labelsFor_le_one_of_inv (s : HoverState) (hs : HoverInv s)
    (a : Nat) : labelsFor a s ≤ 1 := by
  obtain ⟨hbnd, hnd, hatt⟩ := hs
  unfold labelsFor
  cases hL : s.labels.filter (fun q => q.2 = a) with
  | nil => simp
  | cons q t =>
    cases t with
    | nil => simp
    | cons r u =>
      exfalso
      have hndL : ((s.labels.filter (fun q => q.2 = a)).map Prod.fst).Nodup :=
        hnd.sublist ((List.filter_sublist _).map Prod.fst)
      rw [hL] at hndL
      have hqr : q.1 ≠ r.1 := by
        simp only [List.map_cons, List.nodup_cons, List.mem_cons,
          List.mem_map] at hndL
        exact fun heq => hndL.1 (Or.inl heq)
      have hqmem : q ∈ s.labels.filter (fun x => x.2 = a) := by
        rw [hL]; exact List.mem_cons_self _ _
      have hrmem : r ∈ s.labels.filter (fun x => x.2 = a) := by
        rw [hL]; exact List.mem_cons_of_mem _ (List.mem_cons_self _ _)
      have hqa : s.attach a = some q.1 := by
        have h2 : q.2 = a := by simpa using (List.mem_filter.mp hqmem).2
        rw [← h2]; exact hatt q (List.mem_of_mem_filter hqmem)
      have hra : s.attach a = some r.1 := by
        have h2 : r.2 = a := by simpa using (List.mem_filter.mp hrmem).2
        rw [← h2]; exact hatt r (List.mem_of_mem_filter hrmem)
      exact hqr (Option.some.inj (hqa.symm.trans hra))

theorem hoverInv_foldl (evs : List HoverEvent) :
    ∀ s, HoverInv s → HoverInv (evs.foldl hoverStep s) := by
  induction evs with
  | nil => exact fun s hs => hs
  | cons e t ih =>
    intro s hs
    cases e with
    | enter a => exact ih _ (hoverInv_enter a s hs)
    | leave a => exact ih _ (hoverInv_leave a s hs)

theorem hoverInv_run (evs : List HoverEvent) : HoverInv (hoverRun evs) :=
  hoverInv_foldl evs hoverInit hoverInv_init

/-- C8: the hover protocol is a two-state machine per atom: a second
consecutive pointer-enter on the same atom changes nothing (exactly one
label, not two), a pointer-leave on an atom with no label is a no-op, and
from the initial state every event sequence leaves at most one live label
per atom. -/
theorem hover_two_state_machine :
    (∀ (a : Nat) (s : HoverState),
      hoverEnter a (hoverEnter a s) = hoverEnter a s) ∧
      (∀ (a : Nat) (s : HoverState), s.attach a = none →
        hoverLeave a s = s) ∧
      (∀ (evs : List HoverEvent) (a : Nat),
        labelsFor a (hoverRun evs) ≤ 1) := by
  refine ⟨?_, ?_, ?_⟩
  · intro a s
    cases hcase : s.attach a with
    | some h =>
      have h1 : hoverEnter a s = s := hoverEnter_of_attached a s h hcase
      rw [h1]; exact h1
    | none =>
      exact hoverEnter_of_attached a _ _ (hoverEnter_attach_self a s hcase)
  · intro a s hnone
    unfold hoverLeave
    rw [hnone]
  · intro evs a
    exact labelsFor_le_one_of_inv _ (hoverInv_run evs) a

/-- Witness for C8: leaving the unlabeled atom 0 in the initial state
changes nothing. -/
theorem hover_two_state_machine_witness :
    hoverInit.attach 0 = none ∧ hoverLeave 0 hoverInit = hoverInit :=
  ⟨rfl, hover_two_state_machine.2.1 0 hoverInit rfl⟩

end Boltzgen
